import Mathlib

/-!
Verification of the ensemble evaluation and voting engine of
fxincome/ml/tbond_predict.py.

The Python data frames are modelled shallowly: a frame is an ordered list of
column names together with rows, each row carrying an index label and a list
of cells positionally aligned with the columns.  Numeric cells (Python ints
and floats) are modelled as rationals; string cells and missing values (NaN)
have their own constructors.  Trained models (sklearn / keras objects loaded
by the external persistence collaborator) are modelled as abstract row-wise
prediction functions, following the spec's Model Handle description
(plain models are row-independent; sequential models yield one up-probability
scalar per scored date).
-/

/-- A cell value of a data frame: numeric (int/float modelled as ℚ), string,
or missing (NaN). -/
inductive Val where
  | num (q : ℚ)
  | str (s : String)
  | na
  deriving DecidableEq, Repr

/-- Numeric content of a cell, 0 for non-numeric cells.  Used where the
Python code performs arithmetic on cells that are numeric by construction. -/
def Val.toQ : Val → ℚ
  | .num q => q
  | _ => 0

/-- Whether a cell is numeric; a column all of whose cells are numeric models
a numeric-dtype pandas column. -/
def Val.isNum : Val → Bool
  | .num _ => true
  | _ => false

/-- String rendering of a cell, used when a column becomes the frame index. -/
def Val.asStr : Val → String
  | .str s => s
  | .num q => toString q
  | .na => "na"

/-- A pandas-like data frame: ordered column names and rows, each row an
index label together with cells positionally aligned with the columns. -/
structure Frame where
  cols : List String
  rows : List (String × List Val)
  deriving DecidableEq, Repr

/-- Cell of one row at a named column (first occurrence); NaN when the column
is absent or the row is short. -/
def cellIn (cols : List String) (cells : List Val) (c : String) : Val :=
  match cols, cells with
  | [], _ => .na
  | _ :: _, [] => .na
  | c0 :: cs, v :: vs => if c0 = c then v else cellIn cs vs c

/-- Cell of a frame row at a named column. -/
def Frame.cell (f : Frame) (r : String × List Val) (c : String) : Val :=
  cellIn f.cols r.2 c

/-- The values of a named column, top to bottom. -/
def Frame.col (f : Frame) (c : String) : List Val :=
  f.rows.map (fun r => cellIn f.cols r.2 c)

/-- Column selection/reordering, `df[cs]`; pandas list-selection returns a
fresh copy of the data. -/
def Frame.select (f : Frame) (cs : List String) : Frame :=
  { cols := cs
    rows := f.rows.map (fun r => (r.1, cs.map (fun c => cellIn f.cols r.2 c))) }

/-- `df.insert(len(df.columns), column=c, value=vs)`: append a new column on
the right with the given values. -/
def Frame.insertCol (f : Frame) (c : String) (vs : List Val) : Frame :=
  { cols := f.cols ++ [c]
    rows := (f.rows.zip vs).map (fun p => (p.1.1, p.1.2 ++ [p.2])) }

/-- Replace the cell of the (first occurrence of the) named column in one
row's cell list. -/
def setCell (cols : List String) (cells : List Val) (c : String) (v : Val) : List Val :=
  match cols, cells with
  | [], _ => cells
  | _ :: _, [] => []
  | c0 :: cs, v0 :: vs => if c0 = c then v :: vs else v0 :: setCell cs vs c v

/-- `df[c] = vs`: overwrite the column when it exists, else append it. -/
def Frame.setCol (f : Frame) (c : String) (vs : List Val) : Frame :=
  if c ∈ f.cols then
    { cols := f.cols
      rows := (f.rows.zip vs).map (fun p => (p.1.1, setCell f.cols p.1.2 c p.2)) }
  else f.insertCol c vs

/-- `df[mask]`: keep the rows satisfying the predicate. -/
def Frame.filterRows (f : Frame) (p : String × List Val → Bool) : Frame :=
  { cols := f.cols, rows := f.rows.filter p }

/-- Remove the first occurrence of a column name. -/
def removeFirst : List String → String → List String
  | [], _ => []
  | c0 :: cs, c => if c0 = c then cs else c0 :: removeFirst cs c

/-- Drop the cell of the (first occurrence of the) named column from one
row's cell list. -/
def dropCell (cols : List String) (cells : List Val) (c : String) : List Val :=
  match cols, cells with
  | [], _ => cells
  | _ :: _, [] => []
  | c0 :: cs, v0 :: vs => if c0 = c then vs else v0 :: dropCell cs vs c

/-- `df.set_index(c)`: the named column becomes the row index (rendered as a
string label) and is removed from the data columns. -/
def Frame.setIndex (f : Frame) (c : String) : Frame :=
  { cols := removeFirst f.cols c
    rows := f.rows.map (fun r => ((cellIn f.cols r.2 c).asStr, dropCell f.cols r.2 c)) }

/-- Index-aligned lookup, as used by `result[col] = other[col]` which aligns
on the row index: value of column `c` in the row labelled `idx`. -/
def Frame.lookupAt (f : Frame) (idx : String) (c : String) : Val :=
  match f.rows.find? (fun r => decide (r.1 = idx)) with
  | some r => cellIn f.cols r.2 c
  | none => Val.na

/-- Mean of a column under `mean(numeric_only=True)`: the arithmetic mean
when the column is numeric and non-empty, NaN otherwise (string columns are
excluded from the mean and receive NaN in the appended row). -/
def meanVal (vs : List Val) : Val :=
  if vs.isEmpty then Val.na
  else if vs.all Val.isNum then Val.num ((vs.map Val.toQ).sum / vs.length)
  else Val.na

/-- `df.loc['average'] = df.mean(numeric_only=True)`: append a synthetic row
labelled "average" holding each column's numeric mean (NaN on non-numeric
columns). -/
def Frame.appendAverageRow (f : Frame) : Frame :=
  { cols := f.cols
    rows := f.rows ++ [("average", f.cols.map (fun c => meanVal (f.col c)))] }

/-- The per-row Right/Wrong flag column:
`df.apply(lambda x: 'Right' if x[c1] == x[c2] else 'Wrong', axis=1)`. -/
def rightWrongCol (f : Frame) (c1 c2 : String) : List Val :=
  f.rows.map (fun r => if f.cell r c1 = f.cell r c2 then Val.str "Right" else Val.str "Wrong")

/-- Numeric view of one frame row as used by `vote`, which reads the row's
cells by column name and sums them. -/
def rowQ (f : Frame) (r : String × List Val) : String → ℚ :=
  fun c => (f.cell r c).toQ

/-- One step of the accumulation loop inside `vote` (tbond_predict.py lines
58-64): add the model's `_pred` cell under hard voting, its `_up` cell under
soft voting, and raise NotImplementedError otherwise. -/
def vote_step (row : String → ℚ) (weight : String) (score : ℚ) (name : String) :
    Except String ℚ :=
  if weight = "hard" then Except.ok (score + row (name ++ "_pred"))
  else if weight = "soft" then Except.ok (score + row (name ++ "_up"))
  else Except.error "Unknown weight type"

/-- `vote(row, plain_names, nn_names, weight)` (tbond_predict.py lines
43-68): sum each named model's contribution, then return 0 when the score is
at most `len(names)/2` and 1 otherwise. -/
def vote (row : String → ℚ) (plain_names nn_names : List String) (weight : String) :
    Except String ℚ :=
  let names := plain_names ++ nn_names
  let threshold : ℚ := (names.length : ℚ) / 2
  (names.foldlM (vote_step row weight) (0 : ℚ)).bind
    (fun score => if score ≤ threshold then Except.ok 0 else Except.ok 1)

/-- Model metadata as stored by the persistence collaborator (fxincome.utils
ModelAttr): name, feature columns, label columns (exactly one in use). -/
structure ModelAttr where
  name : String
  features : List String
  labels : List String
  deriving DecidableEq

/-- A loaded plain model (tree/SVM/LR).  The trained predictor is external;
following the spec it is row-independent, so it is modelled by its per-row
predicted class and its per-row (down, up) probability pair. -/
structure PlainModel where
  attr : ModelAttr
  predictRow : List Val → ℚ
  probaRow : List Val → ℚ × ℚ

/-- A loaded sequential (neural) model.  Scaling (tbond_nn_predata.scale),
window construction (tbond_nn_predata.gen_pred_x) and the keras predictor are
external collaborators; their composition is modelled as an abstract map from
a prediction date to the model's up-probability scalar for that date. -/
structure NNModel where
  attr : ModelAttr
  probAt : String → ℚ

/-- Rows of `engineered_df[attr.features]`: the feature sub-frame fed to a
model, one cell list per row. -/
def featureRows (df : Frame) (feats : List String) : List (List Val) :=
  (df.select feats).rows.map Prod.snd

/-- `test_pred = model.predict(X)` with `X = engineered_df[attr.features]`. -/
def plain_preds (m : PlainModel) (df : Frame) : List ℚ :=
  (featureRows df m.attr.features).map m.predictRow

/-- `probs = model.predict_proba(X)`: one (down, up) pair per row. -/
def plain_probs (m : PlainModel) (df : Frame) : List (ℚ × ℚ) :=
  (featureRows df m.attr.features).map m.probaRow

/-- `y = engineered_df[attr.labels].squeeze().to_numpy()`: the single label
column's values. -/
def labelCol (df : Frame) (labels : List String) : List Val :=
  df.col (labels.headD "")

/-- The five result columns contributed by one model, in report order
(tbond_predict.py lines 111-116 and 186-191). -/
def model_block (name : String) : List String :=
  [name, name ++ "_pred", name ++ "_actual", name ++ "_down", name ++ "_up"]

/-- Loop body of eval_plain_models (tbond_predict.py lines 88-110), minus the
diagnostics logging: insert the model's prediction and actual columns, then
its Right/Wrong flag and its down/up probability columns, into the running
result frame `df` (the engineered frame is only read). -/
def plain_score_step (engineered_df : Frame) (df : Frame) (m : PlainModel) : Frame :=
  let name := m.attr.name
  let test_pred := plain_preds m engineered_df
  let y := labelCol engineered_df m.attr.labels
  let d1 := df.insertCol (name ++ "_pred") (test_pred.map Val.num)
  let d2 := d1.insertCol (name ++ "_actual") y
  let d3 := d2.setCol name (rightWrongCol d2 (name ++ "_pred") (name ++ "_actual"))
  let d4 := d3.setCol (name ++ "_down") ((plain_probs m engineered_df).map (fun p => Val.num p.1))
  let d5 := d4.setCol (name ++ "_up") ((plain_probs m engineered_df).map (fun p => Val.num p.2))
  d5

/-- eval_plain_models (tbond_predict.py lines 71-118): start from a copy of
the date column of the evaluation frame, score every plain model into it, and
return the result reordered into per-model blocks. -/
def eval_plain_models (models : List PlainModel) (engineered_df : Frame) : Frame :=
  let df := models.foldl (plain_score_step engineered_df) (engineered_df.select ["date"])
  df.select ("date" :: (models.map (fun m => m.attr.name)).flatMap model_block)

/-- eval_plain_models with the evaluation frame threaded explicitly as
state: each pandas statement of the source updates the object it targets
(`df = engineered_df[['date']]` copies; every insert/assign targets `df`),
so the first component is the evaluation frame as left after the call. -/
def eval_plain_models_run (models : List PlainModel) (engineered_df : Frame) :
    Frame × Frame :=
  let st := models.foldl (fun (st : Frame × Frame) m => (st.1, plain_score_step st.1 st.2 m))
    (engineered_df, engineered_df.select ["date"])
  (st.1, st.2.select ("date" :: (models.map (fun m => m.attr.name)).flatMap model_block))

/-- nn predicted classes (tbond_predict.py line 165):
`preds = (probs > 0.5).astype(int)`. -/
def nn_preds (probs : List ℚ) : List ℚ :=
  probs.map (fun p => if 1 / 2 < p then 1 else 0)

/-- nn down-probabilities (tbond_predict.py line 169): `1 - probs`. -/
def nn_down (probs : List ℚ) : List ℚ :=
  probs.map (fun p => 1 - p)

/-- Loop body of the sequential-model part of eval_models (tbond_predict.py
lines 152-169): one up-probability per prediction date, predicted class 1
exactly above 0.5, actual labels with the first seq_len dates dropped, then
the same five result columns as for a plain model. -/
def nn_score_step (df : Frame) (dates : List Val) (seq_len : ℕ)
    (result : Frame) (m : NNModel) : Frame :=
  let name := m.attr.name
  let probs := dates.map (fun d => m.probAt d.asStr)
  let preds := nn_preds probs
  let y := (labelCol df m.attr.labels).drop seq_len
  let r1 := result.insertCol (name ++ "_pred") (preds.map Val.num)
  let r2 := r1.insertCol (name ++ "_actual") y
  let r3 := r2.setCol name (rightWrongCol r2 (name ++ "_pred") (name ++ "_actual"))
  let r4 := r3.setCol (name ++ "_down") ((nn_down probs).map Val.num)
  let r5 := r4.setCol (name ++ "_up") (probs.map Val.num)
  r5

/-- `result.apply(lambda row: vote(row, plain_names, nn_names, weight),
axis=1)`: vote on every row in order, propagating the first error. -/
def mapVotes (f : Frame) (pn nn : List String) (w : String) :
    List (String × List Val) → Except String (List ℚ)
  | [] => Except.ok []
  | r :: rs =>
    match vote (rowQ f r) pn nn w with
    | Except.error e => Except.error e
    | Except.ok v =>
      match mapVotes f pn nn w rs with
      | Except.error e => Except.error e
      | Except.ok vs => Except.ok (v :: vs)

/-- The prediction dates of eval_models (tbond_predict.py lines 145-146):
the evaluation dates present in the plain result, with the first seq_len of
them dropped (those rows only feed the sequence windows). -/
def eval_dates (pm : List PlainModel) (df : Frame) (seq_len : ℕ) : List Val :=
  ((df.col "date").filter
    (fun d => decide (d ∈ (eval_plain_models pm df).col "date"))).drop seq_len

/-- The plain result restricted to the prediction dates (tbond_predict.py
line 147): `result = plain_result[plain_result.date.isin(dates)].copy()`. -/
def eval_result0 (pm : List PlainModel) (df : Frame) (seq_len : ℕ) : Frame :=
  (eval_plain_models pm df).filterRows
    (fun r => decide (cellIn (eval_plain_models pm df).cols r.2 "date"
      ∈ eval_dates pm df seq_len))

/-- The restricted result after scoring every sequential model into it
(tbond_predict.py lines 152-169). -/
def eval_result1 (pm : List PlainModel) (nm : List NNModel) (df : Frame) (seq_len : ℕ) :
    Frame :=
  nm.foldl (nn_score_step df (eval_dates pm df seq_len) seq_len)
    (eval_result0 pm df seq_len)

/-- The tail of eval_models after both vote columns succeeded and the first
plain model name is known (tbond_predict.py lines 172-199): record both vote
columns, move the date column into the index, take the ensemble actual from
the first plain model's actual column by index alignment, add both ensemble
correctness flags, reorder the columns, and append the average row. -/
def eval_finish (pm : List PlainModel) (nm : List NNModel) (df : Frame) (seq_len : ℕ)
    (hardCol softCol : List ℚ) (first : String) : Frame :=
  let plainIdx := (eval_plain_models pm df).setIndex "date"
  let result2 := (eval_result1 pm nm df seq_len).setCol "hard_pred" (hardCol.map Val.num)
  let result3 := result2.setCol "soft_pred" (softCol.map Val.num)
  let result4 := result3.setIndex "date"
  let result5 := result4.setCol "actual"
    (result4.rows.map (fun r => plainIdx.lookupAt r.1 (first ++ "_actual")))
  let result6 := result5.setCol "hard" (rightWrongCol result5 "hard_pred" "actual")
  let result7 := result6.setCol "soft" (rightWrongCol result6 "soft_pred" "actual")
  let history := result7.select
    (["hard", "soft", "hard_pred", "soft_pred", "actual"]
      ++ plainIdx.cols ++ (nm.map (fun m => m.attr.name)).flatMap model_block)
  history.appendAverageRow

/-- eval_models (tbond_predict.py lines 121-200), minus diagnostics logging,
assembled from the stages above in source order: plain scoring, date
trimming, sequential scoring, hard votes, soft votes (computed after the
hard_pred column was recorded, as in the source), then the IndexError on
`plain_names[0]` when no plain model was given, and otherwise the finishing
stage. -/
def eval_models (pm : List PlainModel) (nm : List NNModel) (df : Frame) (seq_len : ℕ) :
    Except String Frame :=
  let result1 := eval_result1 pm nm df seq_len
  let pnames := pm.map (fun m => m.attr.name)
  let nnames := nm.map (fun m => m.attr.name)
  match mapVotes result1 pnames nnames "hard" result1.rows with
  | Except.error e => Except.error e
  | Except.ok hardCol =>
    let result2 := result1.setCol "hard_pred" (hardCol.map Val.num)
    match mapVotes result2 pnames nnames "soft" result2.rows with
    | Except.error e => Except.error e
    | Except.ok softCol =>
      match pnames with
      | [] => Except.error "IndexError: list index out of range"
      | first :: _ => Except.ok (eval_finish pm nm df seq_len hardCol softCol first)

/-! ### Basic facts about Except -/

instance {ε α : Type} [DecidableEq ε] [DecidableEq α] : DecidableEq (Except ε α) :=
  fun x y =>
    match x, y with
    | Except.error a, Except.error b =>
      if h : a = b then isTrue (by rw [h]) else isFalse (fun hc => h (by injection hc))
    | Except.ok a, Except.ok b =>
      if h : a = b then isTrue (by rw [h]) else isFalse (fun hc => h (by injection hc))
    | Except.error _, Except.ok _ => isFalse (fun hc => Except.noConfusion hc)
    | Except.ok _, Except.error _ => isFalse (fun hc => Except.noConfusion hc)

theorem except_bind_ok {ε α β : Type} (a : α) (f : α → Except ε β) :
    (Except.ok a : Except ε α).bind f = f a := rfl

theorem except_bind_error {ε α β : Type} (e : ε) (f : α → Except ε β) :
    (Except.error e : Except ε α).bind f = Except.error e := rfl

theorem except_seq_ok {ε α β : Type} (a : α) (f : α → Except ε β) :
    ((Except.ok a : Except ε α) >>= f) = f a := rfl

/-! ### Properties of the voting function -/

/-- Under hard voting every loop step succeeds and accumulates the row's
`_pred` cells. -/
theorem vote_fold_hard (row : String → ℚ) (names : List String) : ∀ s : ℚ,
    List.foldlM (vote_step row "hard") s names
      = Except.ok (s + (names.map (fun n => row (n ++ "_pred"))).sum) := by
  induction names with
  | nil =>
    intro s
    simp only [List.foldlM, List.map_nil, List.sum_nil, add_zero]
    rfl
  | cons n ns ih =>
    intro s
    have hstep : vote_step row "hard" s n = Except.ok (s + row (n ++ "_pred")) := by
      simp [vote_step]
    simp only [List.foldlM, hstep, except_seq_ok, ih, List.map_cons, List.sum_cons, add_assoc]

/-- Under soft voting every loop step succeeds and accumulates the row's
`_up` cells. -/
theorem vote_fold_soft (row : String → ℚ) (names : List String) : ∀ s : ℚ,
    List.foldlM (vote_step row "soft") s names
      = Except.ok (s + (names.map (fun n => row (n ++ "_up"))).sum) := by
  induction names with
  | nil =>
    intro s
    simp only [List.foldlM, List.map_nil, List.sum_nil, add_zero]
    rfl
  | cons n ns ih =>
    intro s
    have hstep : vote_step row "soft" s n = Except.ok (s + row (n ++ "_up")) := by
      simp [vote_step]
    simp only [List.foldlM, hstep, except_seq_ok, ih, List.map_cons, List.sum_cons, add_assoc]

/-- Closed form of `vote` under hard voting. -/
theorem vote_hard_eq (row : String → ℚ) (pn nn : List String) :
    vote row pn nn "hard"
      = Except.ok (if ((pn ++ nn).map (fun n => row (n ++ "_pred"))).sum
          ≤ ((pn ++ nn).length : ℚ) / 2 then 0 else 1) := by
  simp only [vote, vote_fold_hard, except_bind_ok, zero_add]
  split_ifs <;> rfl

/-- Closed form of `vote` under soft voting. -/
theorem vote_soft_eq (row : String → ℚ) (pn nn : List String) :
    vote row pn nn "soft"
      = Except.ok (if ((pn ++ nn).map (fun n => row (n ++ "_up"))).sum
          ≤ ((pn ++ nn).length : ℚ) / 2 then 0 else 1) := by
  simp only [vote, vote_fold_soft, except_bind_ok, zero_add]
  split_ifs <;> rfl

/-- The concrete soft-voting example row of the spec: two models with
up-probabilities 0.6 and 0.7. -/
def exampleRow : String → ℚ :=
  fun c => if c = "m1_up" then 6 / 10 else if c = "m2_up" then 7 / 10 else 0

/-- C1: for every row and non-empty model-name list, `vote` sums the `_pred`
cells under hard voting and the `_up` cells under soft voting, returns 1
exactly when the score exceeds `count/2` and 0 otherwise; a score of exactly
half the model count yields 0, and the spec's two-model soft example with
up-probabilities 0.6 and 0.7 against threshold 1 yields 1. -/
theorem vote_threshold_claim (row : String → ℚ) (pn nn : List String)
    (hne : pn ++ nn ≠ []) :
    (vote row pn nn "hard"
      = Except.ok (if ((pn ++ nn).map (fun n => row (n ++ "_pred"))).sum
          ≤ ((pn ++ nn).length : ℚ) / 2 then 0 else 1))
    ∧ (vote row pn nn "soft"
      = Except.ok (if ((pn ++ nn).map (fun n => row (n ++ "_up"))).sum
          ≤ ((pn ++ nn).length : ℚ) / 2 then 0 else 1))
    ∧ (((pn ++ nn).map (fun n => row (n ++ "_pred"))).sum = ((pn ++ nn).length : ℚ) / 2
        → vote row pn nn "hard" = Except.ok 0)
    ∧ vote exampleRow ["m1"] ["m2"] "soft" = Except.ok 1 := by
  refine ⟨vote_hard_eq row pn nn, vote_soft_eq row pn nn, fun hhalf => ?_,
    by with_unfolding_all decide⟩
  rw [vote_hard_eq, if_pos (le_of_eq hhalf)]

/-- Witness for C1 at a concrete input: one model predicting 1, so the hard
score 1 exceeds the threshold 1/2. -/
theorem vote_threshold_claim_witness :
    vote (fun _ => (1 : ℚ)) ["m1"] [] "hard" = Except.ok 1 := by
  have h := (vote_threshold_claim (fun _ => (1 : ℚ)) ["m1"] [] (by decide)).1
  rw [h]
  norm_num

/-- C3 counterexample: with no model names at all, the loop body that raises
the unsupported-weighting error is never executed, and `vote` returns 0 even
for the weighting mode "median" — contradicting the claim that it never
returns a result for such a mode. -/
theorem vote_bad_weight_counterexample :
    vote (fun _ => 0) [] [] "median" = Except.ok 0 := by
  with_unfolding_all decide

/-- C3 as amended: for every row and every weighting mode other than "hard"
and "soft", provided at least one model name is given, `vote` fails with the
unsupported-weighting error and returns no result. -/
theorem vote_bad_weight_claim (row : String → ℚ) (pn nn : List String) (w : String)
    (hw1 : w ≠ "hard") (hw2 : w ≠ "soft") (hne : pn ++ nn ≠ []) :
    vote row pn nn w = Except.error "Unknown weight type" := by
  obtain ⟨n, ns, hcons⟩ := List.exists_cons_of_ne_nil hne
  have hstep : vote_step row w 0 n = Except.error "Unknown weight type" := by
    simp [vote_step, hw1, hw2]
  simp only [vote, hcons, List.foldlM, hstep]
  rfl

/-- Witness for the amended C3 at a concrete input: one model, weighting
mode "median". -/
theorem vote_bad_weight_claim_witness :
    vote (fun _ => (0 : ℚ)) ["m1"] [] "median" = Except.error "Unknown weight type" :=
  vote_bad_weight_claim (fun _ => (0 : ℚ)) ["m1"] [] "median"
    (by decide) (by decide) (by decide)

/-- C9: with both model-name lists empty, `vote` returns 0 for every row and
every weighting string, including unsupported ones: the loop never runs, so
the error branch is unreachable and the score 0 is compared against the
threshold 0. -/
theorem vote_empty_models (row : String → ℚ) (w : String) :
    vote row [] [] w = Except.ok 0 := by
  have h : List.foldlM (vote_step row w) (0 : ℚ) ([] ++ []) = Except.ok 0 := rfl
  simp only [vote, h, except_bind_ok]
  norm_num

/-! ### Properties of sequential-model scoring (lines 164-169) -/

/-- Element-wise form of `nn_preds`. -/
theorem nn_preds_getD (probs : List ℚ) : ∀ i : ℕ, i < probs.length →
    (nn_preds probs).getD i 0 = if 1 / 2 < probs.getD i 0 then 1 else 0 := by
  induction probs with
  | nil => intro i hi; exact absurd hi (by simp)
  | cons p ps ih =>
    intro i hi
    cases i with
    | zero => simp [nn_preds]
    | succ j =>
      have hj : j < ps.length := by
        simpa [List.length_cons, Nat.succ_lt_succ_iff] using hi
      simpa [nn_preds] using ih j hj

/-- Element-wise form of `nn_down`. -/
theorem nn_down_getD (probs : List ℚ) : ∀ i : ℕ, i < probs.length →
    (nn_down probs).getD i 0 = 1 - probs.getD i 0 := by
  induction probs with
  | nil => intro i hi; exact absurd hi (by simp)
  | cons p ps ih =>
    intro i hi
    cases i with
    | zero => simp [nn_down]
    | succ j =>
      have hj : j < ps.length := by
        simpa [List.length_cons, Nat.succ_lt_succ_iff] using hi
      simpa [nn_down] using ih j hj

/-- C5: in the sequential-model scoring step of eval_models, the predicted
class of a scored row is 1 exactly when the model's up-probability exceeds
0.5 and 0 otherwise — in particular an up-probability of exactly 0.5 yields
class 0 — and the row's down-probability is 1 minus its up-probability. -/
theorem nn_pred_rule_claim (probs : List ℚ) (i : ℕ) (hi : i < probs.length) :
    ((nn_preds probs).getD i 0 = 1 ↔ 1 / 2 < probs.getD i 0)
    ∧ ((nn_preds probs).getD i 0 = 0 ↔ probs.getD i 0 ≤ 1 / 2)
    ∧ (probs.getD i 0 = 1 / 2 → (nn_preds probs).getD i 0 = 0)
    ∧ (nn_down probs).getD i 0 = 1 - probs.getD i 0 := by
  rw [nn_preds_getD probs i hi, nn_down_getD probs i hi]
  rcases lt_or_le (1 / 2 : ℚ) (probs.getD i 0) with hlt | hle
  · refine ⟨⟨fun _ => hlt, fun _ => if_pos hlt⟩, ?_, fun heq => ?_, rfl⟩
    · rw [if_pos hlt]
      constructor
      · intro h; exact absurd h one_ne_zero
      · intro h; exact absurd hlt (not_lt_of_le h)
    · rw [heq] at hlt; exact absurd hlt (lt_irrefl _)
  · refine ⟨?_, ?_, fun _ => if_neg (not_lt_of_le hle), rfl⟩
    · rw [if_neg (not_lt_of_le hle)]
      constructor
      · intro h; exact absurd h.symm one_ne_zero
      · intro h; exact absurd hle (not_le_of_lt h)
    · exact ⟨fun _ => hle, fun _ => if_neg (not_lt_of_le hle)⟩

/-- Witness for C5 at a concrete input: a single scored row whose
up-probability is exactly 0.5, yielding predicted class 0 and
down-probability 0.5. -/
theorem nn_pred_rule_claim_witness :
    (nn_preds [1 / 2] ).getD 0 0 = 0 ∧ (nn_down [1 / 2]).getD 0 0 = 1 - 1 / 2 :=
  ⟨(nn_pred_rule_claim [1 / 2] 0 (by decide)).2.1.mpr (le_refl _),
   (nn_pred_rule_claim [1 / 2] 0 (by decide)).2.2.2⟩

/-- C6: every per-model result row has down-probability plus up-probability
equal to 1.  For a plain model the (down, up) pair inserted into the result
columns is the external model's predict_proba output, assumed to be a
probability distribution over the two classes; for a sequential model the
down column is computed as 1 minus the up column, so the sum is 1 with no
assumption. -/
theorem proba_sum_claim (m : PlainModel) (df : Frame)
    (hm : ∀ x, (m.probaRow x).1 + (m.probaRow x).2 = 1)
    (probs : List ℚ) (i : ℕ) (hi : i < probs.length) :
    (∀ p ∈ plain_probs m df, p.1 + p.2 = 1)
    ∧ (nn_down probs).getD i 0 + probs.getD i 0 = 1 := by
  constructor
  · intro p hp
    obtain ⟨x, _, hx⟩ := List.mem_map.mp hp
    rw [← hx]
    exact hm x
  · rw [nn_down_getD probs i hi]
    ring

/-- Witness for C6 at a concrete input: a plain model always answering
(1/4, 3/4) together with a one-row up-probability list. -/
theorem proba_sum_claim_witness :
    (∀ p ∈ plain_probs
        { attr := { name := "m", features := ["f"], labels := ["t"] }
          predictRow := fun _ => 1
          probaRow := fun _ => (1 / 4, 3 / 4) }
        { cols := ["f"], rows := [("0", [Val.num 1])] },
      p.1 + p.2 = 1)
    ∧ (nn_down [1 / 3]).getD 0 0 + ([1 / 3] : List ℚ).getD 0 0 = 1 :=
  proba_sum_claim
    { attr := { name := "m", features := ["f"], labels := ["t"] }
      predictRow := fun _ => 1
      probaRow := fun _ => (1 / 4, 3 / 4) }
    { cols := ["f"], rows := [("0", [Val.num 1])] }
    (fun _ => by norm_num)
    [1 / 3] 0 (by decide)

/-! ### eval_plain_models does not mutate its input frame -/

/-- The state-threaded run agrees with the pure function and leaves the
engineered frame untouched. -/
theorem eval_plain_models_run_fold (engineered_df : Frame) :
    ∀ (models : List PlainModel) (df : Frame),
      models.foldl (fun (st : Frame × Frame) m => (st.1, plain_score_step st.1 st.2 m))
        (engineered_df, df)
      = (engineered_df, models.foldl (plain_score_step engineered_df) df) := by
  intro models
  induction models with
  | nil => intro df; rfl
  | cons m ms ih => intro df; simp only [List.foldl_cons, ih]

/-- C8: eval_plain_models never mutates its input evaluation frame.  In the
state-threaded rendering of the source, where every pandas statement updates
the object it targets (`engineered_df[['date']]` copies, and every insert or
column assignment targets the private copy `df`), the evaluation frame after
the call is exactly the input frame, and the returned table is the one built
on the private copy. -/
theorem eval_plain_models_no_mutation (models : List PlainModel) (engineered_df : Frame) :
    (eval_plain_models_run models engineered_df).1 = engineered_df
    ∧ (eval_plain_models_run models engineered_df).2
        = eval_plain_models models engineered_df := by
  unfold eval_plain_models_run eval_plain_models
  rw [eval_plain_models_run_fold]
  exact ⟨rfl, rfl⟩

/-! ### Cell-level lemmas about the frame primitives -/

/-- A frame is well-formed when every row has one cell per column. -/
def Frame.WF (f : Frame) : Prop :=
  ∀ r ∈ f.rows, r.2.length = f.cols.length

theorem cellIn_map (g : String → Val) (c : String) :
    ∀ cs : List String, cellIn cs (cs.map g) c = if c ∈ cs then g c else Val.na := by
  intro cs
  induction cs with
  | nil => simp [cellIn]
  | cons c0 cs ih =>
    simp only [List.map_cons, cellIn]
    by_cases h : c0 = c
    · subst h; simp
    · rw [if_neg h, ih]
      by_cases hm : c ∈ cs
      · rw [if_pos hm, if_pos (List.mem_cons_of_mem c0 hm)]
      · rw [if_neg hm, if_neg ?_]
        intro hc
        rcases List.mem_cons.mp hc with h1 | h2
        · exact h h1.symm
        · exact hm h2

theorem cellIn_append_right (c : String) (cols₂ : List String) (cells₂ : List Val) :
    ∀ (cols : List String) (cells : List Val), cells.length = cols.length → c ∈ cols →
      cellIn (cols ++ cols₂) (cells ++ cells₂) c = cellIn cols cells c := by
  intro cols
  induction cols with
  | nil => intro cells h hc; exact absurd hc (List.not_mem_nil c)
  | cons c0 cs ih =>
    intro cells h hc
    cases cells with
    | nil => simp at h
    | cons v vs =>
      simp only [List.cons_append, cellIn]
      by_cases h0 : c0 = c
      · rw [if_pos h0, if_pos h0]
      · rw [if_neg h0, if_neg h0]
        have hc' : c ∈ cs := by
          rcases List.mem_cons.mp hc with h1 | h2
          · exact absurd h1.symm h0
          · exact h2
        exact ih vs (by simpa using h) hc'

theorem cellIn_setCell_ne (cset c : String) (v : Val) (hne : c ≠ cset) :
    ∀ (cols : List String) (cells : List Val),
      cellIn cols (setCell cols cells cset v) c = cellIn cols cells c := by
  intro cols
  induction cols with
  | nil => intro cells; rfl
  | cons c0 cs ih =>
    intro cells
    cases cells with
    | nil => rfl
    | cons v0 vs =>
      simp only [setCell]
      by_cases h0 : c0 = cset
      · rw [if_pos h0]
        have h0' : c0 ≠ c := fun he => hne (he.symm.trans h0)
        simp only [cellIn, if_neg h0']
      · rw [if_neg h0]
        simp only [cellIn]
        by_cases h1 : c0 = c
        · rw [if_pos h1, if_pos h1]
        · rw [if_neg h1, if_neg h1]; exact ih vs

theorem setCell_length (cset : String) (v : Val) :
    ∀ (cols : List String) (cells : List Val),
      (setCell cols cells cset v).length = cells.length := by
  intro cols
  induction cols with
  | nil => intro cells; rfl
  | cons c0 cs ih =>
    intro cells
    cases cells with
    | nil => rfl
    | cons v0 vs =>
      simp only [setCell]
      by_cases h0 : c0 = cset
      · rw [if_pos h0]; rfl
      · rw [if_neg h0]; simp [ih vs]

/-! ### Suffixed column names never collide with reserved names -/

theorem append_ne_of_longer (n s t : String) (h : t.length < s.length) : n ++ s ≠ t := by
  intro he
  have hl := congrArg String.length he
  rw [String.length_append] at hl
  omega

theorem append_up_ne_date (n : String) : n ++ "_up" ≠ "date" := by
  intro he
  have hl := congrArg String.length he
  rw [String.length_append] at hl
  have hup : ("_up" : String).length = 3 := by decide
  have hdt : ("date" : String).length = 4 := by decide
  have hn : n.length = 1 := by omega
  obtain ⟨ch, hch⟩ := List.length_eq_one.mp (hn : n.data.length = 1)
  have hd := congrArg String.data he
  rw [String.data_append, hch, List.singleton_append] at hd
  have htl := congrArg List.tail hd
  simp only [List.tail_cons] at htl
  exact absurd htl (by decide)

/-! ### Preservation lemmas for the frame operations -/

theorem Frame.col_length (f : Frame) (c : String) :
    (f.col c).length = f.rows.length := by
  simp [Frame.col]

theorem Frame.select_cols (f : Frame) (cs : List String) :
    (f.select cs).cols = cs := rfl

theorem Frame.select_length (f : Frame) (cs : List String) :
    (f.select cs).rows.length = f.rows.length := by
  simp [Frame.select]

theorem Frame.select_keys (f : Frame) (cs : List String) :
    (f.select cs).rows.map Prod.fst = f.rows.map Prod.fst := by
  simp [Frame.select]

theorem Frame.select_WF (f : Frame) (cs : List String) : (f.select cs).WF := by
  intro r hr
  obtain ⟨r0, _, heq⟩ := List.mem_map.mp hr
  rw [← heq]
  simp [Frame.select]

theorem Frame.select_col_mem (f : Frame) (cs : List String) (c : String) (hc : c ∈ cs) :
    (f.select cs).col c = f.col c := by
  simp only [Frame.col, Frame.select, List.map_map]
  refine List.map_congr_left ?_
  intro r _
  simp only [Function.comp]
  rw [cellIn_map (fun c1 => cellIn f.cols r.2 c1) c cs, if_pos hc]

theorem zip_map_fst {α β γ : Type} (g : (α × β) × γ → β) :
    ∀ (rs : List (α × β)) (vs : List γ), vs.length = rs.length →
      ((rs.zip vs).map (fun p => (p.1.1, g p))).map Prod.fst = rs.map Prod.fst := by
  intro rs
  induction rs with
  | nil => intro vs h; rfl
  | cons r rs ih =>
    intro vs h
    cases vs with
    | nil => simp at h
    | cons v vs =>
      simp only [List.zip_cons_cons, List.map_cons]
      rw [ih vs (by simpa using h)]

theorem zip_map_length {α β γ : Type} (g : α × γ → β) :
    ∀ (rs : List α) (vs : List γ), vs.length = rs.length →
      ((rs.zip vs).map g).length = rs.length := by
  intro rs vs h
  simp [List.length_zip, h]

theorem Frame.insertCol_cols (f : Frame) (c : String) (vs : List Val) :
    (f.insertCol c vs).cols = f.cols ++ [c] := rfl

theorem Frame.insertCol_length (f : Frame) (c : String) (vs : List Val)
    (hlen : vs.length = f.rows.length) :
    (f.insertCol c vs).rows.length = f.rows.length := by
  simp [Frame.insertCol, List.length_zip, hlen]

theorem Frame.insertCol_keys (f : Frame) (c : String) (vs : List Val)
    (hlen : vs.length = f.rows.length) :
    (f.insertCol c vs).rows.map Prod.fst = f.rows.map Prod.fst := by
  simp only [Frame.insertCol]
  exact zip_map_fst (fun p => p.1.2 ++ [p.2]) f.rows vs hlen

theorem Frame.insertCol_WF (f : Frame) (c : String) (vs : List Val) (hwf : f.WF) :
    (f.insertCol c vs).WF := by
  intro r hr
  obtain ⟨p, hp, heq⟩ := List.mem_map.mp hr
  obtain ⟨hp1, _⟩ := List.of_mem_zip hp
  rw [← heq]
  simp [Frame.insertCol, hwf p.1 hp1]

theorem insert_cellIn (cols : List String) (cnew c : String) :
    ∀ (rs : List (String × List Val)) (vs : List Val), vs.length = rs.length →
      (∀ r ∈ rs, r.2.length = cols.length) → c ∈ cols →
      ((rs.zip vs).map (fun p => (p.1.1, p.1.2 ++ [p.2]))).map
          (fun r => cellIn (cols ++ [cnew]) r.2 c)
        = rs.map (fun r => cellIn cols r.2 c) := by
  intro rs
  induction rs with
  | nil => intro vs h hwf hc; rfl
  | cons r rs ih =>
    intro vs h hwf hc
    cases vs with
    | nil => simp at h
    | cons v vs =>
      simp only [List.zip_cons_cons, List.map_cons]
      rw [cellIn_append_right c [cnew] [v] cols r.2 (hwf r (by simp)) hc]
      rw [ih vs (by simpa using h) (fun r1 hr1 => hwf r1 (by simp [hr1])) hc]

theorem Frame.insertCol_col (f : Frame) (cnew c : String) (vs : List Val)
    (hlen : vs.length = f.rows.length) (hwf : f.WF) (hc : c ∈ f.cols) :
    (f.insertCol cnew vs).col c = f.col c := by
  simp only [Frame.col, Frame.insertCol]
  exact insert_cellIn f.cols cnew c f.rows vs hlen hwf hc

theorem set_cellIn (cols : List String) (cset c : String) (hne : c ≠ cset) :
    ∀ (rs : List (String × List Val)) (vs : List Val), vs.length = rs.length →
      ((rs.zip vs).map (fun p => (p.1.1, setCell cols p.1.2 cset p.2))).map
          (fun r => cellIn cols r.2 c)
        = rs.map (fun r => cellIn cols r.2 c) := by
  intro rs
  induction rs with
  | nil => intro vs h; rfl
  | cons r rs ih =>
    intro vs h
    cases vs with
    | nil => simp at h
    | cons v vs =>
      simp only [List.zip_cons_cons, List.map_cons]
      rw [cellIn_setCell_ne cset c v hne cols r.2]
      rw [ih vs (by simpa using h)]

theorem Frame.setCol_length (f : Frame) (c : String) (vs : List Val)
    (hlen : vs.length = f.rows.length) :
    (f.setCol c vs).rows.length = f.rows.length := by
  unfold Frame.setCol
  split
  · exact zip_map_length _ f.rows vs hlen
  · exact Frame.insertCol_length f c vs hlen

theorem Frame.setCol_keys (f : Frame) (c : String) (vs : List Val)
    (hlen : vs.length = f.rows.length) :
    (f.setCol c vs).rows.map Prod.fst = f.rows.map Prod.fst := by
  unfold Frame.setCol
  split
  · exact zip_map_fst (fun p => setCell f.cols p.1.2 c p.2) f.rows vs hlen
  · exact Frame.insertCol_keys f c vs hlen

theorem Frame.setCol_WF (f : Frame) (c : String) (vs : List Val) (hwf : f.WF) :
    (f.setCol c vs).WF := by
  unfold Frame.setCol
  split
  · intro r hr
    obtain ⟨p, hp, heq⟩ := List.mem_map.mp hr
    obtain ⟨hp1, _⟩ := List.of_mem_zip hp
    rw [← heq]
    simpa [setCell_length] using hwf p.1 hp1
  · exact Frame.insertCol_WF f c vs hwf

theorem Frame.setCol_col_ne (f : Frame) (cset c : String) (vs : List Val)
    (hlen : vs.length = f.rows.length) (hwf : f.WF) (hne : c ≠ cset) (hc : c ∈ f.cols) :
    (f.setCol cset vs).col c = f.col c := by
  unfold Frame.setCol
  split
  · simp only [Frame.col]
    exact set_cellIn f.cols cset c hne f.rows vs hlen
  · exact Frame.insertCol_col f cset c vs hlen hwf hc

theorem Frame.setCol_mem_cols (f : Frame) (cset : String) (vs : List Val) (c : String)
    (hc : c ∈ f.cols) : c ∈ (f.setCol cset vs).cols := by
  unfold Frame.setCol
  split
  · exact hc
  · exact List.mem_append_left _ hc

theorem Frame.filterRows_WF (f : Frame) (p : String × List Val → Bool) (hwf : f.WF) :
    (f.filterRows p).WF :=
  fun r hr => hwf r (List.mem_of_mem_filter hr)

theorem Frame.setIndex_keys (f : Frame) (c : String) :
    (f.setIndex c).rows.map Prod.fst = (f.col c).map Val.asStr := by
  simp [Frame.setIndex, Frame.col, List.map_map, Function.comp]

theorem Frame.setIndex_length (f : Frame) (c : String) :
    (f.setIndex c).rows.length = f.rows.length := by
  simp [Frame.setIndex]

theorem Frame.appendAverageRow_keys (f : Frame) :
    (f.appendAverageRow).rows.map Prod.fst = f.rows.map Prod.fst ++ ["average"] := by
  simp [Frame.appendAverageRow]

theorem Frame.appendAverageRow_length (f : Frame) :
    (f.appendAverageRow).rows.length = f.rows.length + 1 := by
  simp [Frame.appendAverageRow]

theorem Frame.appendAverageRow_cols (f : Frame) :
    (f.appendAverageRow).cols = f.cols := rfl

theorem rightWrongCol_length (f : Frame) (c1 c2 : String) :
    (rightWrongCol f c1 c2).length = f.rows.length := by
  simp [rightWrongCol]

/-! ### Row and date-column invariants through the scoring folds -/

/-- The running-result invariant: well-formed, a fixed number of rows, and a
date column holding the fixed date values. -/
def FrameInv (n : ℕ) (dates : List Val) (f : Frame) : Prop :=
  f.WF ∧ f.rows.length = n ∧ "date" ∈ f.cols ∧ f.col "date" = dates

theorem FrameInv.insert (n : ℕ) (dates : List Val) (f : Frame) (c : String)
    (vs : List Val) (hc : c ≠ "date") (hvs : vs.length = f.rows.length)
    (h : FrameInv n dates f) : FrameInv n dates (f.insertCol c vs) := by
  obtain ⟨hwf, hlen, hmem, hcol⟩ := h
  refine ⟨Frame.insertCol_WF f c vs hwf, ?_, ?_, ?_⟩
  · rw [Frame.insertCol_length f c vs hvs, hlen]
  · rw [Frame.insertCol_cols]; exact List.mem_append_left _ hmem
  · rw [Frame.insertCol_col f c "date" vs hvs hwf hmem, hcol]

theorem FrameInv.set (n : ℕ) (dates : List Val) (f : Frame) (c : String)
    (vs : List Val) (hc : c ≠ "date") (hvs : vs.length = f.rows.length)
    (h : FrameInv n dates f) : FrameInv n dates (f.setCol c vs) := by
  obtain ⟨hwf, hlen, hmem, hcol⟩ := h
  refine ⟨Frame.setCol_WF f c vs hwf, ?_, Frame.setCol_mem_cols f c vs _ hmem, ?_⟩
  · rw [Frame.setCol_length f c vs hvs, hlen]
  · rw [Frame.setCol_col_ne f c "date" vs hvs hwf (Ne.symm hc) hmem, hcol]

theorem plain_preds_length (m : PlainModel) (df : Frame) :
    (plain_preds m df).length = df.rows.length := by
  simp [plain_preds, featureRows, Frame.select]

theorem plain_probs_length (m : PlainModel) (df : Frame) :
    (plain_probs m df).length = df.rows.length := by
  simp [plain_probs, featureRows, Frame.select]

theorem labelCol_length (df : Frame) (labels : List String) :
    (labelCol df labels).length = df.rows.length := by
  simp [labelCol, Frame.col]

theorem plain_score_step_inv (edf df : Frame) (m : PlainModel)
    (hname : m.attr.name ≠ "date")
    (h : FrameInv edf.rows.length (edf.col "date") df) :
    FrameInv edf.rows.length (edf.col "date") (plain_score_step edf df m) := by
  have hpred : m.attr.name ++ "_pred" ≠ "date" :=
    append_ne_of_longer _ _ _ (by decide)
  have hact : m.attr.name ++ "_actual" ≠ "date" :=
    append_ne_of_longer _ _ _ (by decide)
  have hdown : m.attr.name ++ "_down" ≠ "date" :=
    append_ne_of_longer _ _ _ (by decide)
  have hup : m.attr.name ++ "_up" ≠ "date" := append_up_ne_date m.attr.name
  have h1 := FrameInv.insert _ _ df (m.attr.name ++ "_pred")
    ((plain_preds m edf).map Val.num) hpred
    (by simp [plain_preds_length, h.2.1]) h
  have h2 := FrameInv.insert _ _ _ (m.attr.name ++ "_actual")
    (labelCol edf m.attr.labels) hact
    (by simp [labelCol_length, h1.2.1]) h1
  have h3 := FrameInv.set _ _ _ m.attr.name
    (rightWrongCol _ (m.attr.name ++ "_pred") (m.attr.name ++ "_actual")) hname
    (rightWrongCol_length _ _ _) h2
  have h4 := FrameInv.set _ _ _ (m.attr.name ++ "_down")
    ((plain_probs m edf).map (fun p => Val.num p.1)) hdown
    (by simp [plain_probs_length, h3.2.1]) h3
  have h5 := FrameInv.set _ _ _ (m.attr.name ++ "_up")
    ((plain_probs m edf).map (fun p => Val.num p.2)) hup
    (by simp [plain_probs_length, h4.2.1]) h4
  exact h5

theorem plain_fold_inv (edf : Frame) :
    ∀ (models : List PlainModel) (df : Frame),
      (∀ m ∈ models, m.attr.name ≠ "date") →
      FrameInv edf.rows.length (edf.col "date") df →
      FrameInv edf.rows.length (edf.col "date")
        (models.foldl (plain_score_step edf) df) := by
  intro models
  induction models with
  | nil => intro df _ h; exact h
  | cons m ms ih =>
    intro df hn h
    rw [List.foldl_cons]
    exact ih _ (fun m1 hm1 => hn m1 (by simp [hm1]))
      (plain_score_step_inv edf df m (hn m (by simp)) h)

theorem eval_plain_models_inv (models : List PlainModel) (df : Frame)
    (hn : ∀ m ∈ models, m.attr.name ≠ "date") :
    FrameInv df.rows.length (df.col "date") (eval_plain_models models df) := by
  have hbase : FrameInv df.rows.length (df.col "date") (df.select ["date"]) := by
    refine ⟨Frame.select_WF df ["date"], Frame.select_length df ["date"], ?_, ?_⟩
    · rw [Frame.select_cols]; simp
    · exact Frame.select_col_mem df ["date"] "date" (by simp)
  have hfold := plain_fold_inv df models (df.select ["date"]) hn hbase
  unfold eval_plain_models
  set g := models.foldl (plain_score_step df) (df.select ["date"]) with hg
  refine ⟨Frame.select_WF g _, ?_, ?_, ?_⟩
  · rw [Frame.select_length, hfold.2.1]
  · rw [Frame.select_cols]; simp
  · rw [Frame.select_col_mem g _ "date" (by simp), hfold.2.2.2]

theorem eval_plain_models_cols (models : List PlainModel) (df : Frame) :
    (eval_plain_models models df).cols
      = "date" :: (models.map (fun m => m.attr.name)).flatMap model_block := rfl

/-! ### The date filter keeps exactly the trailing rows -/

theorem filter_key_drop {β : Type} (key : β → Val) (rs : List β) (k : ℕ)
    (hnd : (rs.map key).Nodup) :
    rs.filter (fun r => decide (key r ∈ (rs.map key).drop k)) = rs.drop k := by
  set p := fun r => decide (key r ∈ (rs.map key).drop k) with hp
  have h1 : rs.filter p = (rs.take k ++ rs.drop k).filter p := by
    rw [List.take_append_drop]
  have h2 : (rs.take k).filter p = [] := by
    rw [List.filter_eq_nil_iff]
    intro a ha
    simp only [hp, decide_eq_true_eq]
    intro hmem
    have h4 : key a ∈ (rs.map key).take k := by
      rw [← List.map_take]
      exact List.mem_map_of_mem key ha
    exact List.disjoint_take_drop hnd (le_refl k) h4 hmem
  have h3 : (rs.drop k).filter p = rs.drop k := by
    apply List.filter_eq_self.mpr
    intro a ha
    simp only [hp, decide_eq_true_eq]
    rw [← List.map_drop]
    exact List.mem_map_of_mem key ha
  rw [h1, List.filter_append, h2, h3, List.nil_append]

/-! ### Shape of the eval_models stages -/

theorem eval_dates_eq (pm : List PlainModel) (df : Frame) (k : ℕ)
    (hpm : ∀ m ∈ pm, m.attr.name ≠ "date") :
    eval_dates pm df k = (df.col "date").drop k := by
  have hcol := (eval_plain_models_inv pm df hpm).2.2.2
  unfold eval_dates
  rw [hcol]
  congr 1
  apply List.filter_eq_self.mpr
  intro a ha
  simpa using ha

theorem eval_result0_rows (pm : List PlainModel) (df : Frame) (k : ℕ)
    (hpm : ∀ m ∈ pm, m.attr.name ≠ "date") (hnd : (df.col "date").Nodup) :
    (eval_result0 pm df k).rows = (eval_plain_models pm df).rows.drop k := by
  have hcol := (eval_plain_models_inv pm df hpm).2.2.2
  unfold eval_result0
  rw [eval_dates_eq pm df k hpm]
  simp only [Frame.filterRows, ← hcol]
  exact filter_key_drop
    (fun r => cellIn (eval_plain_models pm df).cols r.2 "date")
    (eval_plain_models pm df).rows k
    (by rw [show (eval_plain_models pm df).rows.map
        (fun r => cellIn (eval_plain_models pm df).cols r.2 "date")
        = (eval_plain_models pm df).col "date" from rfl, hcol]; exact hnd)

theorem eval_result0_inv (pm : List PlainModel) (df : Frame) (k : ℕ)
    (hpm : ∀ m ∈ pm, m.attr.name ≠ "date") (hnd : (df.col "date").Nodup) :
    FrameInv ((df.col "date").drop k).length ((df.col "date").drop k)
      (eval_result0 pm df k) := by
  have hinv := eval_plain_models_inv pm df hpm
  have hrows := eval_result0_rows pm df k hpm hnd
  have hcols : (eval_result0 pm df k).cols = (eval_plain_models pm df).cols := rfl
  refine ⟨?_, ?_, ?_, ?_⟩
  · exact Frame.filterRows_WF _ _ hinv.1
  · rw [show (eval_result0 pm df k).rows.length
        = ((eval_plain_models pm df).rows.drop k).length from by rw [hrows]]
    simp [hinv.2.1, Frame.col_length]
  · rw [hcols]; exact hinv.2.2.1
  · show (eval_result0 pm df k).rows.map
      (fun r => cellIn (eval_result0 pm df k).cols r.2 "date")
      = (df.col "date").drop k
    rw [hcols, hrows, List.map_drop]
    rw [show (eval_plain_models pm df).rows.map
        (fun r => cellIn (eval_plain_models pm df).cols r.2 "date")
        = (eval_plain_models pm df).col "date" from rfl, hinv.2.2.2]

theorem nn_preds_length (probs : List ℚ) : (nn_preds probs).length = probs.length := by
  simp [nn_preds]

theorem nn_down_length (probs : List ℚ) : (nn_down probs).length = probs.length := by
  simp [nn_down]

theorem nn_score_step_inv (df : Frame) (dates : List Val) (k : ℕ) (m : NNModel)
    (hname : m.attr.name ≠ "date") (hy : df.rows.length - k = dates.length)
    (f : Frame) (h : FrameInv dates.length dates f) :
    FrameInv dates.length dates (nn_score_step df dates k f m) := by
  have hpred : m.attr.name ++ "_pred" ≠ "date" :=
    append_ne_of_longer _ _ _ (by decide)
  have hact : m.attr.name ++ "_actual" ≠ "date" :=
    append_ne_of_longer _ _ _ (by decide)
  have hdown : m.attr.name ++ "_down" ≠ "date" :=
    append_ne_of_longer _ _ _ (by decide)
  have hup : m.attr.name ++ "_up" ≠ "date" := append_up_ne_date m.attr.name
  have h1 := FrameInv.insert _ _ f (m.attr.name ++ "_pred")
    ((nn_preds (dates.map (fun d => m.probAt d.asStr))).map Val.num) hpred
    (by simp [nn_preds_length, h.2.1]) h
  have h2 := FrameInv.insert _ _ _ (m.attr.name ++ "_actual")
    ((labelCol df m.attr.labels).drop k) hact
    (by simp [labelCol_length, h1.2.1, hy]) h1
  have h3 := FrameInv.set _ _ _ m.attr.name
    (rightWrongCol _ (m.attr.name ++ "_pred") (m.attr.name ++ "_actual")) hname
    (rightWrongCol_length _ _ _) h2
  have h4 := FrameInv.set _ _ _ (m.attr.name ++ "_down")
    ((nn_down (dates.map (fun d => m.probAt d.asStr))).map Val.num) hdown
    (by simp [nn_down_length, h3.2.1]) h3
  have h5 := FrameInv.set _ _ _ (m.attr.name ++ "_up")
    ((dates.map (fun d => m.probAt d.asStr)).map Val.num) hup
    (by simp [h4.2.1]) h4
  exact h5

theorem nn_fold_inv (df : Frame) (dates : List Val) (k : ℕ)
    (hy : df.rows.length - k = dates.length) :
    ∀ (nms : List NNModel) (f : Frame),
      (∀ m ∈ nms, m.attr.name ≠ "date") → FrameInv dates.length dates f →
      FrameInv dates.length dates (nms.foldl (nn_score_step df dates k) f) := by
  intro nms
  induction nms with
  | nil => intro f _ h; exact h
  | cons m ms ih =>
    intro f hn h
    rw [List.foldl_cons]
    exact ih _ (fun m1 hm1 => hn m1 (by simp [hm1]))
      (nn_score_step_inv df dates k m (hn m (by simp)) hy f h)

theorem eval_result1_inv (pm : List PlainModel) (nm : List NNModel) (df : Frame) (k : ℕ)
    (hpm : ∀ m ∈ pm, m.attr.name ≠ "date") (hnm : ∀ m ∈ nm, m.attr.name ≠ "date")
    (hnd : (df.col "date").Nodup) :
    FrameInv ((df.col "date").drop k).length ((df.col "date").drop k)
      (eval_result1 pm nm df k) := by
  unfold eval_result1
  rw [eval_dates_eq pm df k hpm]
  exact nn_fold_inv df ((df.col "date").drop k) k
    (by simp [Frame.col_length]) nm (eval_result0 pm df k) hnm
    (eval_result0_inv pm df k hpm hnd)

/-! ### The vote columns always succeed for the built-in weightings -/

theorem mapVotes_ok (f : Frame) (pn nn : List String) (w : String)
    (hw : ∀ row : String → ℚ, ∃ q, vote row pn nn w = Except.ok q) :
    ∀ rs : List (String × List Val),
      ∃ vs, mapVotes f pn nn w rs = Except.ok vs ∧ vs.length = rs.length := by
  intro rs
  induction rs with
  | nil => exact ⟨[], rfl, rfl⟩
  | cons r rs ih =>
    obtain ⟨q, hq⟩ := hw (rowQ f r)
    obtain ⟨vs, hvs, hlen⟩ := ih
    refine ⟨q :: vs, ?_, by simp [hlen]⟩
    simp only [mapVotes, hq, hvs]

theorem vote_hard_ok (pn nn : List String) (row : String → ℚ) :
    ∃ q, vote row pn nn "hard" = Except.ok q :=
  ⟨_, vote_hard_eq row pn nn⟩

theorem vote_soft_ok (pn nn : List String) (row : String → ℚ) :
    ∃ q, vote row pn nn "soft" = Except.ok q :=
  ⟨_, vote_soft_eq row pn nn⟩

/-! ### Inverting a successful eval_models run -/

theorem eval_models_ok_elim (pm : List PlainModel) (nm : List NNModel) (df : Frame)
    (k : ℕ) (r : Frame) (hr : eval_models pm nm df k = Except.ok r) :
    ∃ (first : String) (rest : List String) (hardCol softCol : List ℚ),
      pm.map (fun m => m.attr.name) = first :: rest
      ∧ hardCol.length = (eval_result1 pm nm df k).rows.length
      ∧ softCol.length = (eval_result1 pm nm df k).rows.length
      ∧ r = eval_finish pm nm df k hardCol softCol first := by
  obtain ⟨hardCol, hhc, hhlen⟩ := mapVotes_ok (eval_result1 pm nm df k)
    (pm.map (fun m => m.attr.name)) (nm.map (fun m => m.attr.name)) "hard"
    (vote_hard_ok _ _) (eval_result1 pm nm df k).rows
  obtain ⟨softCol, hsc, hslen⟩ := mapVotes_ok
    ((eval_result1 pm nm df k).setCol "hard_pred" (hardCol.map Val.num))
    (pm.map (fun m => m.attr.name)) (nm.map (fun m => m.attr.name)) "soft"
    (vote_soft_ok _ _)
    ((eval_result1 pm nm df k).setCol "hard_pred" (hardCol.map Val.num)).rows
  simp only [eval_models, hhc, hsc] at hr
  cases hpn : pm.map (fun m => m.attr.name) with
  | nil => rw [hpn] at hr; exact absurd hr (by simp)
  | cons first rest =>
    rw [hpn] at hr
    simp only [Except.ok.injEq] at hr
    refine ⟨first, rest, hardCol, softCol, rfl, hhlen, ?_, hr.symm⟩
    rw [hslen, Frame.setCol_length _ _ _ (by simp [hhlen])]

/-! ### Shape of the finishing stage -/

theorem eval_finish_cols (pm : List PlainModel) (nm : List NNModel) (df : Frame)
    (k : ℕ) (hardCol softCol : List ℚ) (first : String) :
    (eval_finish pm nm df k hardCol softCol first).cols
      = ["hard", "soft", "hard_pred", "soft_pred", "actual"]
        ++ (pm.map (fun m => m.attr.name)).flatMap model_block
        ++ (nm.map (fun m => m.attr.name)).flatMap model_block := by
  have hpi : ((eval_plain_models pm df).setIndex "date").cols
      = (pm.map (fun m => m.attr.name)).flatMap model_block := by
    show removeFirst (eval_plain_models pm df).cols "date" = _
    rw [eval_plain_models_cols]
    simp [removeFirst]
  show (["hard", "soft", "hard_pred", "soft_pred", "actual"]
      ++ ((eval_plain_models pm df).setIndex "date").cols
      ++ (nm.map (fun m => m.attr.name)).flatMap model_block : List String) = _
  rw [hpi]

theorem flatMap_model_block_length (ns : List String) :
    (ns.flatMap model_block).length = 5 * ns.length := by
  induction ns with
  | nil => rfl
  | cons n ns ih =>
    simp only [List.flatMap_cons, List.length_append, ih, model_block]
    simp [Nat.mul_succ, Nat.add_comm]

theorem appendAverageRow_last (f : Frame) :
    (f.appendAverageRow).rows.getLast?
      = some ("average", (f.appendAverageRow).cols.map (fun c => meanVal
          ((f.appendAverageRow).rows.dropLast.map
            (fun row => cellIn (f.appendAverageRow).cols row.2 c)))) := by
  simp only [Frame.appendAverageRow, List.dropLast_concat]
  rw [show (f.rows ++ [("average", f.cols.map (fun c => meanVal (f.col c)))]).getLast?
    = some ("average", f.cols.map (fun c => meanVal (f.col c))) from by
      simp [List.getLast?_concat]]
  rfl

theorem eval_finish_is_append (pm : List PlainModel) (nm : List NNModel) (df : Frame)
    (k : ℕ) (hardCol softCol : List ℚ) (first : String) :
    ∃ h : Frame, eval_finish pm nm df k hardCol softCol first = h.appendAverageRow :=
  ⟨_, rfl⟩

theorem eval_finish_keys (pm : List PlainModel) (nm : List NNModel) (df : Frame)
    (k : ℕ) (hardCol softCol : List ℚ) (first : String)
    (hpm : ∀ m ∈ pm, m.attr.name ≠ "date") (hnm : ∀ m ∈ nm, m.attr.name ≠ "date")
    (hnd : (df.col "date").Nodup)
    (hhlen : hardCol.length = (eval_result1 pm nm df k).rows.length)
    (hslen : softCol.length = (eval_result1 pm nm df k).rows.length) :
    (eval_finish pm nm df k hardCol softCol first).rows.map Prod.fst
      = ((df.col "date").drop k).map Val.asStr ++ ["average"]
    ∧ (eval_finish pm nm df k hardCol softCol first).rows.length
      = ((df.col "date").drop k).length + 1 := by
  have hinv1 := eval_result1_inv pm nm df k hpm hnm hnd
  have hinv2 := FrameInv.set _ _ (eval_result1 pm nm df k) "hard_pred"
    (hardCol.map Val.num) (by decide) (by simp [hhlen]) hinv1
  set r2 := (eval_result1 pm nm df k).setCol "hard_pred" (hardCol.map Val.num) with hr2
  have hslen2 : (softCol.map Val.num).length = r2.rows.length := by
    rw [hr2, Frame.setCol_length _ _ _ (by simp [hhlen])]
    simp [hslen]
  have hinv3 := FrameInv.set _ _ r2 "soft_pred" (softCol.map Val.num)
    (by decide) hslen2 hinv2
  set r3 := r2.setCol "soft_pred" (softCol.map Val.num) with hr3
  set r4 := r3.setIndex "date" with hr4
  have hkeys4 : r4.rows.map Prod.fst = ((df.col "date").drop k).map Val.asStr := by
    rw [hr4, Frame.setIndex_keys, hinv3.2.2.2]
  have hlen4 : r4.rows.length = ((df.col "date").drop k).length := by
    rw [hr4, Frame.setIndex_length, hinv3.2.1]
  set vs5 := r4.rows.map (fun r =>
    ((eval_plain_models pm df).setIndex "date").lookupAt r.1 (first ++ "_actual")) with hvs5
  have hl5 : vs5.length = r4.rows.length := by simp [hvs5]
  set r5 := r4.setCol "actual" vs5 with hr5
  have hkeys5 : r5.rows.map Prod.fst = r4.rows.map Prod.fst :=
    Frame.setCol_keys r4 "actual" vs5 hl5
  have hlen5 : r5.rows.length = r4.rows.length :=
    Frame.setCol_length r4 "actual" vs5 hl5
  set r6 := r5.setCol "hard" (rightWrongCol r5 "hard_pred" "actual") with hr6
  have hkeys6 : r6.rows.map Prod.fst = r5.rows.map Prod.fst :=
    Frame.setCol_keys r5 "hard" _ (rightWrongCol_length _ _ _)
  have hlen6 : r6.rows.length = r5.rows.length :=
    Frame.setCol_length r5 "hard" _ (rightWrongCol_length _ _ _)
  set r7 := r6.setCol "soft" (rightWrongCol r6 "hard_pred" "actual") with hr7
  have hkeys7 : r7.rows.map Prod.fst = r6.rows.map Prod.fst :=
    Frame.setCol_keys r6 "soft" _ (rightWrongCol_length _ _ _)
  have hlen7 : r7.rows.length = r6.rows.length :=
    Frame.setCol_length r6 "soft" _ (rightWrongCol_length _ _ _)
  constructor
  · show ((r6.setCol "soft" (rightWrongCol r6 "soft_pred" "actual")).select
      (["hard", "soft", "hard_pred", "soft_pred", "actual"]
        ++ ((eval_plain_models pm df).setIndex "date").cols
        ++ (nm.map (fun m => m.attr.name)).flatMap model_block)).appendAverageRow.rows.map
        Prod.fst = _
    rw [Frame.appendAverageRow_keys, Frame.select_keys,
      Frame.setCol_keys r6 "soft" _ (rightWrongCol_length _ _ _),
      hkeys6, hkeys5, hkeys4]
  · show ((r6.setCol "soft" (rightWrongCol r6 "soft_pred" "actual")).select
      (["hard", "soft", "hard_pred", "soft_pred", "actual"]
        ++ ((eval_plain_models pm df).setIndex "date").cols
        ++ (nm.map (fun m => m.attr.name)).flatMap model_block)).appendAverageRow.rows.length
        = _
    rw [Frame.appendAverageRow_length, Frame.select_length,
      Frame.setCol_length r6 "soft" _ (rightWrongCol_length _ _ _),
      hlen6, hlen5, hlen4]

/-! ### Claims about the assembled report -/

/-- C2: for every evaluation frame with distinct dates and window length
seq_len, a successful eval_models report covers exactly the dates of the
evaluation range with the first seq_len dropped — len(dates) - seq_len data
rows — followed by the single synthetic "average" row, so it has
len(dates) - seq_len + 1 rows in total. -/
theorem eval_models_report_rows_claim (pm : List PlainModel) (nm : List NNModel)
    (df : Frame) (k : ℕ) (r : Frame)
    (hnd : (df.col "date").Nodup)
    (hpm : ∀ m ∈ pm, m.attr.name ≠ "date") (hnm : ∀ m ∈ nm, m.attr.name ≠ "date")
    (hr : eval_models pm nm df k = Except.ok r) :
    ((df.col "date").drop k).length = df.rows.length - k
    ∧ r.rows.map Prod.fst = ((df.col "date").drop k).map Val.asStr ++ ["average"]
    ∧ r.rows.length = (df.rows.length - k) + 1 := by
  obtain ⟨first, rest, hardCol, softCol, hpn, hhlen, hslen, hreq⟩ :=
    eval_models_ok_elim pm nm df k r hr
  have hk := eval_finish_keys pm nm df k hardCol softCol first hpm hnm hnd hhlen hslen
  have hdl : ((df.col "date").drop k).length = df.rows.length - k := by
    simp [Frame.col_length]
  refine ⟨hdl, ?_, ?_⟩
  · rw [hreq]; exact hk.1
  · rw [hreq, hk.2, hdl]

/-- The fixed evaluation frame of the end-to-end scenario: 12 dated rows
with a feature column and a label column. -/
def wdf12 : Frame :=
  { cols := ["date", "f1", "target"]
    rows := [("0", [Val.str "d01", Val.num 1, Val.num 0]),
             ("1", [Val.str "d02", Val.num 2, Val.num 1]),
             ("2", [Val.str "d03", Val.num 3, Val.num 0]),
             ("3", [Val.str "d04", Val.num 4, Val.num 1]),
             ("4", [Val.str "d05", Val.num 5, Val.num 0]),
             ("5", [Val.str "d06", Val.num 6, Val.num 1]),
             ("6", [Val.str "d07", Val.num 7, Val.num 0]),
             ("7", [Val.str "d08", Val.num 8, Val.num 1]),
             ("8", [Val.str "d09", Val.num 9, Val.num 0]),
             ("9", [Val.str "d10", Val.num 10, Val.num 1]),
             ("10", [Val.str "d11", Val.num 11, Val.num 0]),
             ("11", [Val.str "d12", Val.num 12, Val.num 1])] }

/-- A concrete plain model for the end-to-end scenario. -/
def wplain : PlainModel :=
  { attr := { name := "xgb", features := ["f1"], labels := ["target"] }
    predictRow := fun _ => 1
    probaRow := fun _ => (1 / 4, 3 / 4) }

/-- A concrete sequential model for the end-to-end scenario. -/
def wnn : NNModel :=
  { attr := { name := "lstm", features := ["f1"], labels := ["target"] }
    probAt := fun _ => 3 / 5 }

/-- The report assembled in the end-to-end scenario (12 dated rows,
seq_len = 10). -/
def wreport : Frame :=
  (eval_models [wplain] [wnn] wdf12 10).toOption.getD { cols := [], rows := [] }

/-- Witness for C2: in the 12-row scenario with seq_len = 10 the report has
the last 2 dates plus the average row — 3 rows in total. -/
theorem eval_models_report_rows_claim_witness :
    eval_models [wplain] [wnn] wdf12 10 = Except.ok wreport
    ∧ wreport.rows.map Prod.fst = ["d11", "d12", "average"]
    ∧ wreport.rows.length = 3 := by
  have hr : eval_models [wplain] [wnn] wdf12 10 = Except.ok wreport := by
    with_unfolding_all rfl
  have h := eval_models_report_rows_claim [wplain] [wnn] wdf12 10 wreport
    (by decide) (by decide) (by decide) hr
  refine ⟨hr, ?_, h.2.2⟩
  rw [h.2.1]
  decide

/-- C4: a successful eval_models report has exactly the fixed column order —
the two ensemble correctness flags, the two ensemble predictions, the
actual, then one five-column block per plain model followed by one per
sequential model, hence 5 + 5k + 5m data columns — and its final row is the
synthetic "average" row holding, for every column, the numeric mean of the
data rows when the column is numeric and NaN otherwise (the string
correctness-flag columns are excluded from the mean). -/
theorem eval_models_report_cols_claim (pm : List PlainModel) (nm : List NNModel)
    (df : Frame) (k : ℕ) (r : Frame)
    (hr : eval_models pm nm df k = Except.ok r) :
    r.cols = ["hard", "soft", "hard_pred", "soft_pred", "actual"]
        ++ (pm.map (fun m => m.attr.name)).flatMap model_block
        ++ (nm.map (fun m => m.attr.name)).flatMap model_block
    ∧ r.cols.length = 5 + 5 * pm.length + 5 * nm.length
    ∧ r.rows.getLast? = some ("average", r.cols.map (fun c => meanVal
        (r.rows.dropLast.map (fun row => cellIn r.cols row.2 c)))) := by
  obtain ⟨first, rest, hardCol, softCol, hpn, hhlen, hslen, hreq⟩ :=
    eval_models_ok_elim pm nm df k r hr
  subst hreq
  refine ⟨eval_finish_cols pm nm df k hardCol softCol first, ?_, ?_⟩
  · rw [eval_finish_cols pm nm df k hardCol softCol first, List.length_append,
      List.length_append, flatMap_model_block_length, flatMap_model_block_length,
      List.length_map, List.length_map]
    simp
  · obtain ⟨h, hh⟩ := eval_finish_is_append pm nm df k hardCol softCol first
    rw [hh]
    exact appendAverageRow_last h

/-- Witness for C4: in the 12-row scenario with one plain and one sequential
model the report has 15 columns in the fixed order, and its last row is the
average row with NaN in the string flag columns and numeric means elsewhere. -/
theorem eval_models_report_cols_claim_witness :
    eval_models [wplain] [wnn] wdf12 10 = Except.ok wreport
    ∧ wreport.cols.length = 5 + 5 * 1 + 5 * 1 := by
  have hr : eval_models [wplain] [wnn] wdf12 10 = Except.ok wreport := by
    with_unfolding_all rfl
  have h := eval_models_report_cols_claim [wplain] [wnn] wdf12 10 wreport hr
  exact ⟨hr, h.2.1⟩

/-! ### eval_models presupposes at least one plain model -/

/-- A three-row frame with two distinct label columns, used to demonstrate
which model's actual column feeds the ensemble. -/
def dfC10 : Frame :=
  { cols := ["date", "f1", "ta", "tb"]
    rows := [("0", [Val.str "d1", Val.num 1, Val.num 1, Val.num 0]),
             ("1", [Val.str "d2", Val.num 2, Val.num 0, Val.num 1]),
             ("2", [Val.str "d3", Val.num 3, Val.num 1, Val.num 1])] }

/-- First plain model of the demonstration, labelled by column "ta". -/
def pmA : PlainModel :=
  { attr := { name := "A", features := ["f1"], labels := ["ta"] }
    predictRow := fun _ => 1
    probaRow := fun _ => (0, 1) }

/-- Second plain model of the demonstration, labelled by column "tb". -/
def pmB : PlainModel :=
  { attr := { name := "B", features := ["f1"], labels := ["tb"] }
    predictRow := fun _ => 0
    probaRow := fun _ => (1, 0) }

/-- C10: eval_models presupposes at least one plain model.  With an empty
plain-model list it fails with the IndexError raised by `plain_names[0]`
(after the vote columns, which always succeed for the built-in weightings,
have been computed), and when plain models are present the report's ensemble
"actual" column holds the first plain model's actual labels on the scored
dates — here the "ta" labels of model A dropped by seq_len, which differ
from model B's "tb" labels. -/
theorem eval_models_requires_plain_claim :
    (∀ (nm : List NNModel) (df : Frame) (k : ℕ),
      eval_models [] nm df k = Except.error "IndexError: list index out of range")
    ∧ ((eval_models [pmA, pmB] [] dfC10 1).toOption.map
        (fun r => r.rows.dropLast.map (fun row => cellIn r.cols row.2 "actual"))
      = some ((dfC10.col "ta").drop 1))
    ∧ (dfC10.col "ta").drop 1 ≠ (dfC10.col "tb").drop 1 := by
  refine ⟨?_, by with_unfolding_all decide, by decide⟩
  intro nm df k
  obtain ⟨hardCol, hhc, hhlen⟩ := mapVotes_ok (eval_result1 [] nm df k)
    (([] : List PlainModel).map (fun m => m.attr.name))
    (nm.map (fun m => m.attr.name)) "hard"
    (vote_hard_ok _ _) (eval_result1 [] nm df k).rows
  obtain ⟨softCol, hsc, _⟩ := mapVotes_ok
    ((eval_result1 [] nm df k).setCol "hard_pred" (hardCol.map Val.num))
    (([] : List PlainModel).map (fun m => m.attr.name))
    (nm.map (fun m => m.attr.name)) "soft"
    (vote_soft_ok _ _)
    ((eval_result1 [] nm df k).setCol "hard_pred" (hardCol.map Val.num)).rows
  simp only [eval_models, List.map_nil] at hhc hsc ⊢
  simp only [hhc, hsc]
